import Mathlib

/-!
Verification of the windowing/buffering pipeline of a virtual-scroll grid
(shallow embedding of `src/pipeline.ts`).

Numbers flowing through the pipeline are JavaScript numbers; on the inputs
considered here all arithmetic is exact, so they are embedded as rationals
(`ℚ`) with `Int.floor` / `Int.ceil` standing for `Math.floor` / `Math.ceil`,
and integer quantities (indices, counts, page numbers) as `ℤ` / `ℕ`.
Item collections are `List (Option V)`: a `none` slot is a hole
(JavaScript `undefined`).
-/

namespace VirtualScrollGrid

/-- Embeds `ResizeMeasurement` from `pipeline.ts` (gaps and item extents are
pixel sizes, `columns` the column count). -/
structure ResizeMeasurement where
  rowGap : ℚ
  columns : ℤ
  itemHeightWithGap : ℚ
  itemWidthWithGap : ℚ
deriving DecidableEq

/-- Embeds `BufferMeta` from `pipeline.ts`. -/
structure BufferMeta where
  bufferedOffset : ℤ
  bufferedLength : ℤ
deriving DecidableEq

/-- Embeds `getBufferMeta` from `pipeline.ts`.  The JavaScript guard
`itemHeightWithGap && e` (which yields `0` when `itemHeightWithGap` is `0`)
becomes an `if`-expression. -/
def getBufferMeta (windowInnerHeight : ℚ) (heightAboveWindow : ℚ)
    (m : ResizeMeasurement) : BufferMeta :=
  let rowsInView : ℤ :=
    if m.itemHeightWithGap = 0 then 0
    else ⌈(windowInnerHeight + m.rowGap) / m.itemHeightWithGap⌉ + 1
  let length : ℤ := rowsInView * m.columns
  let rowsBeforeView : ℤ :=
    if m.itemHeightWithGap = 0 then 0
    else ⌊(heightAboveWindow + m.rowGap) / m.itemHeightWithGap⌋
  let offset : ℤ := rowsBeforeView * m.columns
  let bufferedOffset : ℤ := max (offset - ⌊(length : ℚ) / 2⌋) 0
  let bufferedLength : ℤ := length * 2
  ⟨bufferedOffset, bufferedLength⟩

/-- Embeds the rxjs `range(start, count)` creation operator: the `count`
consecutive integers starting at `start` (none when `count ≤ 0`). -/
def rxRange (start count : ℤ) : List ℤ :=
  (List.range count.toNat).map (fun (i : ℕ) => start + (i : ℤ))

/-- Embeds `getObservableOfVisiblePageNumbers` from `pipeline.ts`; the
emitted observable is embedded as the list of emitted page numbers. -/
def getObservableOfVisiblePageNumbers (bm : BufferMeta) (length pageSize : ℤ) :
    List ℤ :=
  let startPage : ℤ := ⌊(bm.bufferedOffset : ℚ) / (pageSize : ℚ)⌋
  let endPage : ℤ :=
    ⌈((min (bm.bufferedOffset + bm.bufferedLength) length : ℤ) : ℚ) / (pageSize : ℚ)⌉
  rxRange startPage (endPage - startPage)

/-- Embeds `ItemsByPage` from `pipeline.ts` (the spec's FetchedPage:
`pageNumber` is a non-negative integer). -/
structure ItemsByPage (V : Type) where
  pageNumber : ℕ
  items : List (Option V)

/-- Embeds `accumulateAllItems` from `pipeline.ts`.  The ramda combinators are
unfolded to list operations: `concat(__, fill)` appends the hole padding,
`remove(start, pageSize)` is `take start ++ drop (start + pageSize)`,
`insertAll(start, xs)` is `take start ++ xs ++ drop start` (both clamp the
index to the list length, which `List.take`/`List.drop` do for free), and
`slice(0, length)` is `take length`.  `new Array(n).fill(undefined)` is
`List.replicate n none`, with `Math.max(·, 0)` built into `ℕ` subtraction. -/
def accumulateAllItems {V : Type} (allItems : List (Option V))
    (page : ItemsByPage V) (length pageSize : ℕ) : List (Option V) :=
  let allItemsFill : List (Option V) := List.replicate (length - allItems.length) none
  let pageFill : List (Option V) := List.replicate (pageSize - page.items.length) none
  let normalizedItems := page.items.take pageSize ++ pageFill
  let afterConcat := allItems ++ allItemsFill
  let start := page.pageNumber * pageSize
  let afterRemove := afterConcat.take start ++ afterConcat.drop (start + pageSize)
  let afterInsert := afterRemove.take start ++ normalizedItems ++ afterRemove.drop start
  afterInsert.take length

/-- The `style` record of an `InternalItem`: the transform string
`translate(xpx, ypx)` is embedded by its two pixel components. -/
structure Style where
  gridArea : String
  translateX : ℚ
  translateY : ℚ
deriving DecidableEq

/-- Embeds `InternalItem` from `pipeline.ts` (`style` is optional there). -/
structure InternalItem (V : Type) where
  index : ℤ
  value : Option V
  style : Option Style
deriving DecidableEq

/-- Index normalisation of `Array.prototype.slice` (hence of ramda `slice`):
a negative index counts from the end, a large one is clamped to the length. -/
def jsSliceBound (len : ℕ) (i : ℤ) : ℕ :=
  if i < 0 then ((len : ℤ) + i).toNat else min i.toNat len

/-- Embeds `Array.prototype.slice(start, stop)` / ramda `slice`. -/
def jsSlice {α : Type} (start stop : ℤ) (xs : List α) : List α :=
  (xs.take (jsSliceBound xs.length stop)).drop (jsSliceBound xs.length start)

/-- Indexed map (ramda `addIndex(map)`), carrying the running local index. -/
def mapIndexedFrom {α β : Type} (f : ℕ → α → β) : ℕ → List α → List β
  | _, [] => []
  | k, a :: as => f k a :: mapIndexedFrom f (k + 1) as

/-- Indexed map starting at local index `0`. -/
def mapIndexed {α β : Type} (f : ℕ → α → β) (xs : List α) : List β :=
  mapIndexedFrom f 0 xs

/-- Embeds `getVisibleItems` from `pipeline.ts`.  JavaScript `%` (remainder
with the sign of the dividend) is `Int.tmod`; `Math.floor(index / columns)`
is the floor of the exact division. -/
def getVisibleItems {V : Type} (bm : BufferMeta) (m : ResizeMeasurement)
    (allItems : List (Option V)) : List (InternalItem V) :=
  mapIndexed
    (fun localIndex value =>
      let index : ℤ := bm.bufferedOffset + (localIndex : ℤ)
      let x : ℚ := ((Int.tmod index m.columns : ℤ) : ℚ) * m.itemWidthWithGap
      let y : ℚ := (⌊(index : ℚ) / (m.columns : ℚ)⌋ : ℚ) * m.itemHeightWithGap
      ⟨index, value, some ⟨"1/1", x, y⟩⟩)
    (jsSlice bm.bufferedOffset (bm.bufferedOffset + bm.bufferedLength) allItems)

/-- Helper for ramda `difference`: keeps elements not in `seen`, adding each
kept element to `seen` (so the result is also duplicate-free). -/
def differenceAux {α : Type} [DecidableEq α] (seen : List α) : List α → List α
  | [] => []
  | a :: as =>
      if a ∈ seen then differenceAux seen as else a :: differenceAux (a :: seen) as

/-- Embeds ramda `difference(first, second)`: the set (first-occurrence order,
no duplicates) of elements of `first` not contained in `second`. -/
def difference {α : Type} [DecidableEq α] (first second : List α) : List α :=
  differenceAux second first

/-- Embeds ramda `without(xs, list)`: removes every occurrence of the values
of `xs` from `list`. -/
def without {α : Type} [DecidableEq α] (xs : List α) (list : List α) : List α :=
  list.filter (fun b => decide (b ∉ xs))

/-- Embeds `Map.get` on the `Map` built from a list of key/value pairs
(first matching key wins; the keys, coming from `difference`, are distinct). -/
def mapGet {α : Type} [DecidableEq α] : List (α × α) → α → Option α
  | [], _ => none
  | (a, b) :: rest, k => if k = a then some b else mapGet rest k

/-- Embeds `accumulateBuffer` from `pipeline.ts`: diff the new projection
against the previous buffer, replace freed slots in place, drop the
leftover freed slots and append the leftover new slots. -/
def accumulateBuffer {V : Type} [DecidableEq V]
    (buffer visibleItems : List (InternalItem V)) : List (InternalItem V) :=
  let itemsToAdd := difference visibleItems buffer
  let itemsFreeToUse := difference buffer visibleItems
  let replaceMap := itemsFreeToUse.zip itemsToAdd
  let itemsToBeReplaced := replaceMap.map Prod.fst
  let itemsToReplaceWith := replaceMap.map Prod.snd
  let itemsToDelete := difference itemsFreeToUse itemsToBeReplaced
  let itemsToAppend := difference itemsToAdd itemsToReplaceWith
  ((without itemsToDelete buffer).map (fun item => (mapGet replaceMap item).getD item))
    ++ itemsToAppend

/-- An event seen by the deduplication stage of `pageNumber$` in
`pipeline.ts`: either a page number arriving from the (flattened) visible
page-number windows, or an emission of the flushing stream
`merge(pageSize$, pageProvider$)`. -/
inductive PageEvent where
  | page (n : ℤ)
  | flush
deriving DecidableEq

/-- One step of the rxjs `distinct(identity, flushes)` operator: a page
number is emitted iff it is not in the seen-set, which it then joins; a
flush event clears the seen-set. -/
def distinctStep (seen : List ℤ) : PageEvent → List ℤ × List ℤ
  | .page n => if n ∈ seen then (seen, []) else (n :: seen, [n])
  | .flush => ([], [])

/-- The page numbers emitted by `distinct(identity, merge(pageSize$,
pageProvider$))` over a trace of interleaved events, from a given seen-set. -/
def distinctRun (seen : List ℤ) : List PageEvent → List ℤ
  | [] => []
  | e :: es => (distinctStep seen e).2 ++ distinctRun (distinctStep seen e).1 es

/-- The seen-set of the deduplication stage after processing a trace. -/
def distinctState (seen : List ℤ) : List PageEvent → List ℤ
  | [] => seen
  | e :: es => distinctState (distinctStep seen e).1 es


/-! ## Helper lemmas -/

theorem mem_rxRange {p s c : ℤ} : p ∈ rxRange s c ↔ s ≤ p ∧ p < s + c := by
  unfold rxRange
  rw [List.mem_map]
  constructor
  · rintro ⟨i, hi, rfl⟩
    rw [List.mem_range] at hi
    omega
  · rintro ⟨h1, h2⟩
    refine ⟨(p - s).toNat, ?_, ?_⟩
    · rw [List.mem_range]
      omega
    · omega

theorem rxRange_pairwise (s c : ℤ) : (rxRange s c).Pairwise (· < ·) := by
  unfold rxRange
  exact List.Pairwise.map _ (fun a b (h : a < b) => by omega) (List.pairwise_lt_range _)

theorem getBufferMeta_of_ne_zero (wih haw : ℚ) (m : ResizeMeasurement)
    (hne : m.itemHeightWithGap ≠ 0) :
    getBufferMeta wih haw m =
      ⟨max (⌊(haw + m.rowGap) / m.itemHeightWithGap⌋ * m.columns -
          ⌊(((⌈(wih + m.rowGap) / m.itemHeightWithGap⌉ + 1) * m.columns : ℤ) : ℚ) / 2⌋) 0,
        (⌈(wih + m.rowGap) / m.itemHeightWithGap⌉ + 1) * m.columns * 2⟩ := by
  simp only [getBufferMeta, if_neg hne]

/-! ## Claims -/

/-- Claim C1: for every non-negative heightAboveWindow and every measurement
with positive itemHeightWithGap and integer columns, getBufferMeta returns
bufferedLength = 2 * rowsInView * columns with rowsInView =
ceil((windowInnerHeight + rowGap) / itemHeightWithGap) + 1, and
bufferedOffset = max(floor((heightAboveWindow + rowGap) / itemHeightWithGap)
* columns - floor(rowsInView * columns / 2), 0); in particular the offset is
non-negative. -/
theorem claim_C1 (wih haw : ℚ) (m : ResizeMeasurement) (h0 : 0 ≤ haw)
    (hpos : 0 < m.itemHeightWithGap) :
    (getBufferMeta wih haw m).bufferedLength =
        2 * (⌈(wih + m.rowGap) / m.itemHeightWithGap⌉ + 1) * m.columns ∧
    (getBufferMeta wih haw m).bufferedOffset =
        max (⌊(haw + m.rowGap) / m.itemHeightWithGap⌋ * m.columns -
          ⌊(((⌈(wih + m.rowGap) / m.itemHeightWithGap⌉ + 1) * m.columns : ℤ) : ℚ) / 2⌋) 0 ∧
    0 ≤ (getBufferMeta wih haw m).bufferedOffset := by
  rw [getBufferMeta_of_ne_zero wih haw m (ne_of_gt hpos)]
  exact ⟨by ring, rfl, le_max_right _ _⟩

theorem claim_C1_witness :
    (0 : ℚ) ≤ 0 ∧ (0 : ℚ) < 110 ∧
    ((getBufferMeta 500 0 ⟨10, 3, 110, 100⟩).bufferedLength =
        2 * (⌈((500 : ℚ) + 10) / 110⌉ + 1) * 3 ∧
      (getBufferMeta 500 0 ⟨10, 3, 110, 100⟩).bufferedOffset =
        max (⌊((0 : ℚ) + 10) / 110⌋ * 3 -
          ⌊(((⌈((500 : ℚ) + 10) / 110⌉ + 1) * 3 : ℤ) : ℚ) / 2⌋) 0 ∧
      0 ≤ (getBufferMeta 500 0 ⟨10, 3, 110, 100⟩).bufferedOffset) :=
  ⟨by decide, by decide, claim_C1 500 0 ⟨10, 3, 110, 100⟩ (by decide) (by decide)⟩

/-- Claim C9: when itemHeightWithGap is 0 both divisions are guarded to 0, so
getBufferMeta returns bufferedOffset = 0 and bufferedLength = 0 (finite
values, no exception). -/
theorem claim_C9 (wih haw : ℚ) (m : ResizeMeasurement)
    (h : m.itemHeightWithGap = 0) :
    (getBufferMeta wih haw m).bufferedOffset = 0 ∧
    (getBufferMeta wih haw m).bufferedLength = 0 := by
  simp [getBufferMeta, h]

theorem claim_C9_witness :
    (⟨10, 3, 0, 100⟩ : ResizeMeasurement).itemHeightWithGap = 0 ∧
    (getBufferMeta 300 7 ⟨10, 3, 0, 100⟩).bufferedOffset = 0 ∧
    (getBufferMeta 300 7 ⟨10, 3, 0, 100⟩).bufferedLength = 0 :=
  ⟨by decide, claim_C9 300 7 ⟨10, 3, 0, 100⟩ (by decide)⟩

/-- Claim C2: getObservableOfVisiblePageNumbers emits exactly the consecutive
integers of [startPage, endPage) in increasing order, with startPage =
floor(bufferedOffset / pageSize) and endPage = ceil(min(bufferedOffset +
bufferedLength, totalLength) / pageSize); for bufferedOffset = 25,
bufferedLength = 50, pageSize = 20 and totalLength ≥ 75 it emits exactly the
pages 1, 2, 3. -/
theorem claim_C2 (bm : BufferMeta) (L pS : ℤ) (hL : 0 ≤ L) (hpS : 0 < pS) :
    (∀ p : ℤ, p ∈ getObservableOfVisiblePageNumbers bm L pS ↔
        (⌊(bm.bufferedOffset : ℚ) / (pS : ℚ)⌋ ≤ p ∧
          p < ⌈((min (bm.bufferedOffset + bm.bufferedLength) L : ℤ) : ℚ) / (pS : ℚ)⌉)) ∧
    (getObservableOfVisiblePageNumbers bm L pS).Pairwise (· < ·) ∧
    (∀ L2 : ℤ, 75 ≤ L2 →
      getObservableOfVisiblePageNumbers ⟨25, 50⟩ L2 20 = [1, 2, 3]) := by
  refine ⟨?_, ?_, ?_⟩
  · intro p
    simp only [getObservableOfVisiblePageNumbers]
    rw [mem_rxRange]
    omega
  · simp only [getObservableOfVisiblePageNumbers]
    exact rxRange_pairwise _ _
  · intro L2 hL2
    simp only [getObservableOfVisiblePageNumbers]
    have hmin : min ((25 : ℤ) + 50) L2 = 75 := by omega
    rw [hmin]
    have hs : ⌊((25 : ℤ) : ℚ) / ((20 : ℤ) : ℚ)⌋ = 1 := by
      rw [Int.floor_eq_iff]
      constructor <;> norm_num
    have hc : ⌈((75 : ℤ) : ℚ) / ((20 : ℤ) : ℚ)⌉ = 4 := by
      rw [Int.ceil_eq_iff]
      constructor <;> norm_num
    rw [hs, hc]
    decide

theorem claim_C2_witness :
    (0 : ℤ) ≤ 75 ∧ (0 : ℤ) < 20 ∧
    ((∀ p : ℤ, p ∈ getObservableOfVisiblePageNumbers ⟨25, 50⟩ 75 20 ↔
        (⌊((25 : ℤ) : ℚ) / ((20 : ℤ) : ℚ)⌋ ≤ p ∧
          p < ⌈((min ((25 : ℤ) + 50) 75 : ℤ) : ℚ) / ((20 : ℤ) : ℚ)⌉)) ∧
      (getObservableOfVisiblePageNumbers ⟨25, 50⟩ 75 20).Pairwise (· < ·) ∧
      (∀ L2 : ℤ, 75 ≤ L2 →
        getObservableOfVisiblePageNumbers ⟨25, 50⟩ L2 20 = [1, 2, 3])) :=
  ⟨by decide, by decide, claim_C2 ⟨25, 50⟩ 75 20 (by decide) (by decide)⟩


theorem normalized_length {V : Type} (items : List (Option V)) (pS : ℕ) :
    (items.take pS ++ List.replicate (pS - items.length) (none : Option V)).length = pS := by
  simp only [List.length_append, List.length_take, List.length_replicate]
  omega

theorem remove_insert_eq {α : Type} (xs ys : List α) (s k : ℕ) :
    (xs.take s ++ xs.drop (s + k)).take s ++ ys ++ (xs.take s ++ xs.drop (s + k)).drop s
      = xs.take s ++ ys ++ xs.drop (s + k) := by
  rcases Nat.le_total s xs.length with h | h
  · have hlen : s ≤ (xs.take s).length := by
      simp only [List.length_take]
      omega
    rw [List.take_append_of_le_length hlen, List.drop_append_of_le_length hlen,
      List.take_take, min_self, List.drop_take]
    simp
  · have h2 : xs.drop (s + k) = [] := List.drop_of_length_le (by omega)
    have h3 : xs.drop s = [] := List.drop_of_length_le h
    rw [List.take_of_length_le h, h2]
    simp [List.take_of_length_le h, h3]

theorem accumulateAllItems_eq {V : Type} (allItems : List (Option V))
    (page : ItemsByPage V) (L pS : ℕ) :
    accumulateAllItems allItems page L pS =
      ((allItems ++ List.replicate (L - allItems.length) none).take (page.pageNumber * pS)
        ++ (page.items.take pS ++ List.replicate (pS - page.items.length) none)
        ++ (allItems ++ List.replicate (L - allItems.length) none).drop
            (page.pageNumber * pS + pS)).take L := by
  simp only [accumulateAllItems]
  rw [remove_insert_eq]

theorem accumulateAllItems_length {V : Type} (allItems : List (Option V))
    (page : ItemsByPage V) (L pS : ℕ) :
    (accumulateAllItems allItems page L pS).length = L := by
  rw [accumulateAllItems_eq]
  simp only [List.length_take, List.length_append, List.length_replicate,
    List.length_drop]
  generalize page.pageNumber * pS = s
  omega

theorem accumulateAllItems_getElem {V : Type} (allItems : List (Option V))
    (page : ItemsByPage V) (L pS i : ℕ) (hi : i < L) :
    (accumulateAllItems allItems page L pS)[i]? =
      if page.pageNumber * pS ≤ i ∧ i < page.pageNumber * pS + pS then
        (page.items.take pS ++
          List.replicate (pS - page.items.length) none)[i - page.pageNumber * pS]?
      else (allItems ++ List.replicate (L - allItems.length) none)[i]? := by
  rw [accumulateAllItems_eq, List.getElem?_take_of_lt hi]
  have hN := normalized_length page.items pS
  have hXlen : L ≤ (allItems ++ List.replicate (L - allItems.length) (none : Option V)).length := by
    simp only [List.length_append, List.length_replicate]
    omega
  rcases Nat.lt_or_ge i (page.pageNumber * pS) with h1 | h1
  · rw [if_neg (by omega)]
    rw [List.getElem?_append_left (by
      simp only [List.length_append, List.length_take, List.length_replicate]
      omega)]
    rw [List.getElem?_append_left (by
      simp only [List.length_take, List.length_append, List.length_replicate]
      omega)]
    rw [List.getElem?_take_of_lt h1]
  · rcases Nat.lt_or_ge i (page.pageNumber * pS + pS) with h2 | h2
    · rw [if_pos ⟨h1, h2⟩]
      have hA : ((allItems ++ List.replicate (L - allItems.length)
          (none : Option V)).take (page.pageNumber * pS)).length = page.pageNumber * pS := by
        simp only [List.length_take, List.length_append, List.length_replicate]
        omega
      rw [List.getElem?_append_left (by
        simp only [List.length_append, List.length_take, List.length_replicate]
        omega)]
      rw [List.getElem?_append_right (by rw [hA]; exact h1)]
      rw [hA]
    · rw [if_neg (by omega)]
      rw [List.getElem?_append_right (by
        simp only [List.length_append, List.length_take, List.length_replicate]
        omega)]
      rw [List.getElem?_drop]
      congr 1
      simp only [List.length_append, List.length_take, List.length_replicate]
      omega


theorem pages_disjoint {a b s i : ℕ} (hne : a ≠ b) (ha1 : a * s ≤ i)
    (ha2 : i < a * s + s) (hb1 : b * s ≤ i) (hb2 : i < b * s + s) : False := by
  rcases Nat.lt_or_ge a b with h | h
  · have h2 : (a + 1) * s ≤ b * s := Nat.mul_le_mul_right s h
    rw [Nat.add_mul, Nat.one_mul] at h2
    omega
  · have h1 : b + 1 ≤ a := by omega
    have h2 : (b + 1) * s ≤ a * s := Nat.mul_le_mul_right s h1
    rw [Nat.add_mul, Nat.one_mul] at h2
    omega

/-- Claim C4: when a fetched page exactly fills pageSize and fits below
totalLength, the accumulated collection equals the page's items on the
page-aligned slice and agrees everywhere else below totalLength with the
prior collection padded with holes up to totalLength. -/
theorem claim_C4 {V : Type} (allItems : List (Option V)) (page : ItemsByPage V)
    (L pS : ℕ) (hItems : page.items.length = pS)
    (hFit : (page.pageNumber + 1) * pS ≤ L) (hpS : 0 < pS) :
    ∀ i : ℕ, i < L →
      ((page.pageNumber * pS ≤ i ∧ i < page.pageNumber * pS + pS →
        (accumulateAllItems allItems page L pS)[i]? =
          page.items[i - page.pageNumber * pS]?) ∧
      (¬(page.pageNumber * pS ≤ i ∧ i < page.pageNumber * pS + pS) →
        (accumulateAllItems allItems page L pS)[i]? =
          (allItems ++ List.replicate (L - allItems.length) none)[i]?)) := by
  intro i hi
  have hnorm : page.items.take pS ++
      List.replicate (pS - page.items.length) (none : Option V) = page.items := by
    rw [List.take_of_length_le (le_of_eq hItems), hItems, Nat.sub_self]
    simp
  constructor
  · intro hin
    rw [accumulateAllItems_getElem allItems page L pS i hi, if_pos hin, hnorm]
  · intro hout
    rw [accumulateAllItems_getElem allItems page L pS i hi, if_neg hout]

theorem claim_C4_witness :
    ([some 1, some 2] : List (Option ℕ)).length = 2 ∧ (1 + 1) * 2 ≤ 4 ∧ 0 < 2 ∧
    (∀ i : ℕ, i < 4 →
      ((1 * 2 ≤ i ∧ i < 1 * 2 + 2 →
        (accumulateAllItems ([some 9] : List (Option ℕ)) ⟨1, [some 1, some 2]⟩ 4 2)[i]? =
          ([some 1, some 2] : List (Option ℕ))[i - 1 * 2]?) ∧
      (¬(1 * 2 ≤ i ∧ i < 1 * 2 + 2) →
        (accumulateAllItems ([some 9] : List (Option ℕ)) ⟨1, [some 1, some 2]⟩ 4 2)[i]? =
          (([some 9] : List (Option ℕ)) ++
            List.replicate (4 - ([some 9] : List (Option ℕ)).length) none)[i]?))) :=
  ⟨by decide, by decide, by decide,
    claim_C4 [some 9] ⟨1, [some 1, some 2]⟩ 4 2 (by decide) (by decide) (by decide)⟩

/-- Claim C5: folding accumulateAllItems over two fetched pages with distinct
page numbers (same totalLength and pageSize) is order-independent. -/
theorem claim_C5 {V : Type} (allItems : List (Option V)) (p q : ItemsByPage V)
    (L pS : ℕ) (hne : p.pageNumber ≠ q.pageNumber) (hpS : 0 < pS) :
    accumulateAllItems (accumulateAllItems allItems p L pS) q L pS =
      accumulateAllItems (accumulateAllItems allItems q L pS) p L pS := by
  apply List.ext_getElem?
  intro i
  rcases Nat.lt_or_ge i L with hi | hi
  · rw [accumulateAllItems_getElem _ q L pS i hi,
      accumulateAllItems_getElem _ p L pS i hi,
      accumulateAllItems_length allItems p L pS,
      accumulateAllItems_length allItems q L pS, Nat.sub_self]
    simp only [List.replicate_zero, List.append_nil]
    rw [accumulateAllItems_getElem allItems p L pS i hi,
      accumulateAllItems_getElem allItems q L pS i hi]
    by_cases hq : q.pageNumber * pS ≤ i ∧ i < q.pageNumber * pS + pS
    · by_cases hp : p.pageNumber * pS ≤ i ∧ i < p.pageNumber * pS + pS
      · exact False.elim (pages_disjoint hne hp.1 hp.2 hq.1 hq.2)
      · rw [if_pos hq, if_neg hp, if_pos hq]
    · by_cases hp : p.pageNumber * pS ≤ i ∧ i < p.pageNumber * pS + pS
      · rw [if_neg hq, if_pos hp, if_pos hp]
      · rw [if_neg hq, if_neg hp, if_neg hp, if_neg hq]
  · rw [List.getElem?_eq_none (by rw [accumulateAllItems_length]; exact hi),
      List.getElem?_eq_none (by rw [accumulateAllItems_length]; exact hi)]

theorem claim_C5_witness :
    (0 : ℕ) ≠ 1 ∧ 0 < 1 ∧
    accumulateAllItems (accumulateAllItems ([] : List (Option ℕ)) ⟨0, [some 1]⟩ 3 1)
        ⟨1, [some 2]⟩ 3 1 =
      accumulateAllItems (accumulateAllItems ([] : List (Option ℕ)) ⟨1, [some 2]⟩ 3 1)
        ⟨0, [some 1]⟩ 3 1 :=
  ⟨by decide, by decide,
    claim_C5 [] ⟨0, [some 1]⟩ ⟨1, [some 2]⟩ 3 1 (by decide) (by decide)⟩

/-- Claim C6: for every prior collection, fetched page, totalLength and
pageSize, the accumulated collection has length exactly totalLength (padded
with holes up to it, truncated down to it, without error). -/
theorem claim_C6 {V : Type} (allItems : List (Option V)) (page : ItemsByPage V)
    (L pS : ℕ) :
    (accumulateAllItems allItems page L pS).length = L ∧
    ∀ i : ℕ, L ≤ i → (accumulateAllItems allItems page L pS)[i]? = none :=
  ⟨accumulateAllItems_length allItems page L pS, fun _ hi =>
    List.getElem?_eq_none (by rw [accumulateAllItems_length]; exact hi)⟩


theorem length_mapIndexedFrom {α β : Type} (f : ℕ → α → β) :
    ∀ (k : ℕ) (xs : List α), (mapIndexedFrom f k xs).length = xs.length
  | _, [] => rfl
  | k, a :: as => by
    simp only [mapIndexedFrom, List.length_cons, length_mapIndexedFrom f (k + 1) as]

theorem getElem?_mapIndexedFrom {α β : Type} (f : ℕ → α → β) :
    ∀ (k : ℕ) (xs : List α) (i : ℕ),
      (mapIndexedFrom f k xs)[i]? = (xs[i]?).map (f (k + i))
  | _, [], i => by simp [mapIndexedFrom]
  | k, a :: as, 0 => by simp [mapIndexedFrom]
  | k, a :: as, n + 1 => by
    simp only [mapIndexedFrom, List.getElem?_cons_succ]
    rw [show k + (n + 1) = k + 1 + n by omega]
    exact getElem?_mapIndexedFrom f (k + 1) as n

/-- Claim C3 fails on the code: `getVisibleItems` slices the collection with
`Array.prototype.slice`, which clamps to the collection's length, so indices
of the buffer window at or beyond `allItems.length` produce no slot at all
(instead of a slot with an undefined value).  Here the window `[0, 2)` over
an empty collection yields no slot for index `0`. -/
theorem claim_C3_counterexample :
    ¬ ∀ i : ℤ, 0 ≤ i → i < 2 →
      ∃ slot ∈ getVisibleItems ⟨0, 2⟩ ⟨0, 1, 1, 1⟩ ([] : List (Option ℕ)),
        slot.index = i ∧ slot.value = none := by
  intro h
  obtain ⟨slot, hmem, _⟩ := h 0 (by norm_num) (by norm_num)
  rw [show getVisibleItems ⟨0, 2⟩ ⟨0, 1, 1, 1⟩ ([] : List (Option ℕ)) = [] from rfl]
    at hmem
  exact List.not_mem_nil slot hmem

/-- Claim C3, amended: for a buffer window with non-negative offset and
length and a positive column count, `getVisibleItems` returns one RenderSlot
for every index of `[bufferedOffset, min (bufferedOffset + bufferedLength)
allItems.length)` — the window clamped at the collection's end, so indices at
or beyond `allItems.length` yield no slot — and the slot for index `i`
carries value `allItems[i]` and the layout transform
`translate((i mod columns) * itemWidthWithGap,
floor(i / columns) * itemHeightWithGap)`. -/
theorem claim_C3_amended {V : Type} (bm : BufferMeta) (m : ResizeMeasurement)
    (allItems : List (Option V)) (hoff : 0 ≤ bm.bufferedOffset)
    (hlen : 0 ≤ bm.bufferedLength) (hcols : 0 < m.columns) :
    (getVisibleItems bm m allItems).length =
      min (bm.bufferedOffset + bm.bufferedLength).toNat allItems.length
        - bm.bufferedOffset.toNat ∧
    ∀ k : ℕ, k < (getVisibleItems bm m allItems).length →
      (getVisibleItems bm m allItems)[k]? =
        (allItems[bm.bufferedOffset.toNat + k]?).map (fun v =>
          ⟨bm.bufferedOffset + (k : ℤ), v,
            some ⟨"1/1",
              (((bm.bufferedOffset + (k : ℤ)) % m.columns : ℤ) : ℚ) * m.itemWidthWithGap,
              (⌊((bm.bufferedOffset + (k : ℤ)) : ℚ) / ((m.columns : ℤ) : ℚ)⌋ : ℚ) *
                m.itemHeightWithGap⟩⟩) := by
  have hb1 : jsSliceBound allItems.length bm.bufferedOffset =
      min bm.bufferedOffset.toNat allItems.length := by
    rw [jsSliceBound, if_neg (not_lt.mpr hoff)]
  have hb2 : jsSliceBound allItems.length (bm.bufferedOffset + bm.bufferedLength) =
      min (bm.bufferedOffset + bm.bufferedLength).toNat allItems.length := by
    rw [jsSliceBound, if_neg (not_lt.mpr (by omega))]
  constructor
  · simp only [getVisibleItems, mapIndexed, length_mapIndexedFrom, jsSlice, hb1, hb2,
      List.length_drop, List.length_take]
    omega
  · intro k hk
    simp only [getVisibleItems, mapIndexed, length_mapIndexedFrom, jsSlice, hb1, hb2,
      List.length_drop, List.length_take] at hk
    simp only [getVisibleItems, mapIndexed, jsSlice, hb1, hb2]
    rw [getElem?_mapIndexedFrom, List.getElem?_drop,
      List.getElem?_take_of_lt (by omega)]
    rw [show min bm.bufferedOffset.toNat allItems.length + k =
      bm.bufferedOffset.toNat + k from by omega]
    cases hv : allItems[bm.bufferedOffset.toNat + k]? with
    | none => rfl
    | some v =>
      simp only [Option.map_some']
      rw [show (0 : ℕ) + k = k from by omega]
      rw [Int.tmod_eq_emod (by omega) (by omega)]
      norm_cast


theorem claim_C3_amended_witness :
    (0 : ℤ) ≤ 0 ∧ (0 : ℤ) ≤ 4 ∧ (0 : ℤ) < 2 ∧
    ((getVisibleItems ⟨0, 4⟩ ⟨0, 2, 10, 5⟩
        ([some 1, some 2, none] : List (Option ℕ))).length =
      min ((0 : ℤ) + 4).toNat ([some 1, some 2, none] : List (Option ℕ)).length
        - (0 : ℤ).toNat ∧
    ∀ k : ℕ, k < (getVisibleItems ⟨0, 4⟩ ⟨0, 2, 10, 5⟩
        ([some 1, some 2, none] : List (Option ℕ))).length →
      (getVisibleItems ⟨0, 4⟩ ⟨0, 2, 10, 5⟩
          ([some 1, some 2, none] : List (Option ℕ)))[k]? =
        (([some 1, some 2, none] : List (Option ℕ))[(0 : ℤ).toNat + k]?).map (fun v =>
          ⟨(0 : ℤ) + (k : ℤ), v,
            some ⟨"1/1", ((((0 : ℤ) + (k : ℤ)) % (2 : ℤ) : ℤ) : ℚ) * (5 : ℚ),
              (⌊(((0 : ℤ) + (k : ℤ)) : ℚ) / (((2 : ℤ) : ℤ) : ℚ)⌋ : ℚ) * (10 : ℚ)⟩⟩)) :=
  ⟨by decide, by decide, by decide,
    claim_C3_amended ⟨0, 4⟩ ⟨0, 2, 10, 5⟩ [some 1, some 2, none]
      (by decide) (by decide) (by decide)⟩

theorem differenceAux_eq_nil {α : Type} [DecidableEq α] :
    ∀ (l seen : List α), (∀ x ∈ l, x ∈ seen) → differenceAux seen l = []
  | [], _, _ => rfl
  | a :: as, seen, h => by
    simp only [differenceAux, if_pos (h a (List.mem_cons_self a as))]
    exact differenceAux_eq_nil as seen (fun x hx => h x (List.mem_cons_of_mem a hx))

theorem differenceAux_of_disjoint {α : Type} [DecidableEq α] :
    ∀ (l seen : List α), l.Nodup → (∀ x ∈ l, x ∉ seen) → differenceAux seen l = l
  | [], _, _, _ => rfl
  | a :: as, seen, hnd, h => by
    rw [List.nodup_cons] at hnd
    simp only [differenceAux, if_neg (h a (List.mem_cons_self a as))]
    congr 1
    refine differenceAux_of_disjoint as (a :: seen) hnd.2 ?_
    intro x hx
    rw [List.mem_cons]
    push_neg
    exact ⟨fun hxa => hnd.1 (hxa ▸ hx), h x (List.mem_cons_of_mem a hx)⟩

/-- Claim C7: when the new projection equals the previous buffer exactly,
`accumulateBuffer` returns the previous buffer unchanged — no replacement,
deletion or append happens. -/
theorem claim_C7 {V : Type} [DecidableEq V]
    (buffer visibleItems : List (InternalItem V)) (h : visibleItems = buffer) :
    accumulateBuffer buffer visibleItems = buffer := by
  subst h
  have hdiff : difference visibleItems visibleItems = [] :=
    differenceAux_eq_nil visibleItems visibleItems (fun x hx => hx)
  simp only [accumulateBuffer, hdiff]
  simp [difference, differenceAux, without, mapGet]

theorem claim_C7_witness :
    ([⟨0, some 5, none⟩] : List (InternalItem ℕ)) = [⟨0, some 5, none⟩] ∧
    accumulateBuffer ([⟨0, some 5, none⟩] : List (InternalItem ℕ))
        [⟨0, some 5, none⟩] = [⟨0, some 5, none⟩] :=
  ⟨rfl, claim_C7 [⟨0, some 5, none⟩] [⟨0, some 5, none⟩] rfl⟩

/-- Claim C10: applied to an empty previous buffer and a projection of
pairwise-distinct slots, `accumulateBuffer` returns exactly the projection,
same slots in the same order. -/
theorem claim_C10 {V : Type} [DecidableEq V]
    (visibleItems : List (InternalItem V))
    (h : visibleItems.Pairwise (· ≠ ·)) :
    accumulateBuffer [] visibleItems = visibleItems := by
  have hadd : difference visibleItems ([] : List (InternalItem V)) = visibleItems :=
    differenceAux_of_disjoint visibleItems [] h (fun x _ hx => List.not_mem_nil x hx)
  have hfree : difference ([] : List (InternalItem V)) visibleItems = [] := rfl
  simp only [accumulateBuffer, hadd, hfree]
  simp [without, mapGet, hadd,
    show difference ([] : List (InternalItem V)) ([] : List (InternalItem V)) = []
      from rfl]

theorem claim_C10_witness :
    ([⟨0, some 1, none⟩, ⟨1, none, none⟩] : List (InternalItem ℕ)).Pairwise (· ≠ ·) ∧
    accumulateBuffer ([] : List (InternalItem ℕ))
        [⟨0, some 1, none⟩, ⟨1, none, none⟩] =
      [⟨0, some 1, none⟩, ⟨1, none, none⟩] :=
  ⟨by decide, claim_C10 [⟨0, some 1, none⟩, ⟨1, none, none⟩] (by decide)⟩


theorem distinctRun_append (seen : List ℤ) (t1 t2 : List PageEvent) :
    distinctRun seen (t1 ++ t2) =
      distinctRun seen t1 ++ distinctRun (distinctState seen t1) t2 := by
  induction t1 generalizing seen with
  | nil => rfl
  | cons e es ih =>
    simp only [List.cons_append, distinctRun, distinctState, List.append_eq, ih,
      List.append_assoc]

theorem distinctState_append (seen : List ℤ) (t1 t2 : List PageEvent) :
    distinctState seen (t1 ++ t2) = distinctState (distinctState seen t1) t2 := by
  induction t1 generalizing seen with
  | nil => rfl
  | cons e es ih => simp only [List.cons_append, distinctState, List.append_eq, ih]

theorem distinctRun_nodup :
    ∀ (evs : List PageEvent) (seen : List ℤ),
      (∀ e ∈ evs, e ≠ PageEvent.flush) →
      (distinctRun seen evs).Nodup ∧ ∀ n ∈ distinctRun seen evs, n ∉ seen
  | [], seen, _ => ⟨List.nodup_nil, fun n hn => absurd hn (List.not_mem_nil n)⟩
  | e :: es, seen, h => by
    cases e with
    | flush => exact absurd rfl (h PageEvent.flush (List.mem_cons_self _ _))
    | page n =>
      have hes : ∀ x ∈ es, x ≠ PageEvent.flush :=
        fun x hx => h x (List.mem_cons_of_mem _ hx)
      by_cases hn : n ∈ seen
      · simp only [distinctRun, distinctStep, if_pos hn, List.nil_append]
        exact distinctRun_nodup es seen hes
      · simp only [distinctRun, distinctStep, if_neg hn, List.singleton_append]
        obtain ⟨ih1, ih2⟩ := distinctRun_nodup es (n :: seen) hes
        refine ⟨List.nodup_cons.mpr
          ⟨fun hmem => ih2 n hmem (List.mem_cons_self n seen), ih1⟩, ?_⟩
        intro x hx
        rw [List.mem_cons] at hx
        rcases hx with rfl | hx
        · exact hn
        · exact fun hxs => ih2 x hx (List.mem_cons_of_mem n hxs)

/-- Claim C8: the deduplication stage of the `pageNumber$` stream — the rxjs
`distinct` keyed by identity and flushed by `merge(pageSize$, pageProvider$)`
— never emits the same page number twice within an epoch (a flush-free
segment of the event trace, i.e. between two consecutive emissions of the
pageSize or pageProvider signals), even when successive windows revisit page
numbers, and its memory is reset exactly at a flush. -/
theorem claim_C8 (seen : List ℤ) (pre seg : List PageEvent)
    (h : ∀ e ∈ seg, e ≠ PageEvent.flush) :
    distinctRun seen (pre ++ seg) =
        distinctRun seen pre ++ distinctRun (distinctState seen pre) seg ∧
    (distinctRun (distinctState seen pre) seg).Nodup ∧
    distinctState seen (pre ++ [PageEvent.flush]) = [] := by
  refine ⟨distinctRun_append seen pre seg,
    (distinctRun_nodup seg (distinctState seen pre) h).1, ?_⟩
  rw [distinctState_append]
  rfl

theorem claim_C8_witness :
    (∀ e ∈ [PageEvent.page 1, PageEvent.page 2, PageEvent.page 1],
        e ≠ PageEvent.flush) ∧
    (distinctRun [] ([PageEvent.page 1, PageEvent.flush] ++
          [PageEvent.page 1, PageEvent.page 2, PageEvent.page 1]) =
        distinctRun [] [PageEvent.page 1, PageEvent.flush] ++
          distinctRun (distinctState [] [PageEvent.page 1, PageEvent.flush])
            [PageEvent.page 1, PageEvent.page 2, PageEvent.page 1] ∧
      (distinctRun (distinctState [] [PageEvent.page 1, PageEvent.flush])
          [PageEvent.page 1, PageEvent.page 2, PageEvent.page 1]).Nodup ∧
      distinctState [] ([PageEvent.page 1, PageEvent.flush] ++
          [PageEvent.flush]) = []) :=
  ⟨by decide, claim_C8 [] [PageEvent.page 1, PageEvent.flush]
    [PageEvent.page 1, PageEvent.page 2, PageEvent.page 1] (by decide)⟩

end VirtualScrollGrid
